import Mathlib

set_option maxHeartbeats 1000000

/- Verification development for the mesmerize memory-game core
   (mesmerize.ino): the high-score persistence layer, the EEPROM
   byte-level read/write helpers, the sequence generator, the scoring
   function and the randomized difficulty strategy, shallowly embedded
   as executable Lean definitions. -/

/-! ## Constants from the source -/

/-- Number of entries in the high-score table (EEP_HIGH_SCORE_TABLE_SIZE). -/
def EEP_HIGH_SCORE_TABLE_SIZE : Nat := 10

/-- Byte length of the EEPROM device, the value of EEPROM.length() on the
target board (addresses 0 to 1023, per the source comments). -/
def EEPROM_LENGTH : Nat := 1024

/-- Maximum sequence length (ROUNDP_SEQUENCE_LENGTH_MAX). -/
def ROUNDP_SEQUENCE_LENGTH_MAX : Nat := 15

/-- Maximum number of unique symbols (ROUNDP_UNIQUE_SYMBOLS_MAX). -/
def ROUNDP_UNIQUE_SYMBOLS_MAX : Nat := 4

/-- Minimum symbol display time in ms (ROUNDP_DISPLAY_TIME_MIN). -/
def ROUNDP_DISPLAY_TIME_MIN : Nat := 500

/-- Minimum input deadline in ms (ROUNDP_INPUT_TIME_MIN). -/
def ROUNDP_INPUT_TIME_MIN : Nat := 500

/-! ## Data model -/

/-- A high-score record (struct highScore): an unsigned score paired with a
short alias (char array, modelled as a list of characters). -/
structure HighScore where
  score : Nat
  hsAlias : List Char
deriving DecidableEq

/-- Record used as the read default for a table index that is out of range. -/
def hsDefault : HighScore := ⟨0, []⟩

/-- The mutable round configuration (struct roundProfile), restricted to the
fields the difficulty strategies read and write: the four difficulty
dimensions plus the running score.  The symbol array and the input
interpretation function pointer are never touched by the strategies. -/
structure RoundProfile where
  sequenceLength : Nat
  uniqueSymbols : Nat
  displayTime : Nat
  inputTime : Nat
  score : Nat
deriving DecidableEq

/-! ## Generic list helpers used by the embedded loops -/

/-- In-place exchange of positions i and j of an array, as performed with a
temporary variable in eep_sortHighScoreTable and chooseRandomSymbols:
afterwards position i holds the old element j and position j the old
element i. -/
def listSwap (l : List α) (i j : Nat) (d : α) : List α :=
  (l.set i (l.getD j d)).set j (l.getD i d)

/-- Unsigned 16-bit subtraction, the semantics of `a - b` on the target's
16-bit unsigned int type (used by randomRoundComplexity on the
displayTime and inputTime fields).  Faithful for a < 2^16 and b ≤ 2^16. -/
def sub16 (a b : Nat) : Nat := (a + 65536 - b) % 65536

/-! ## Persistence layer, byte level (eep_readULong / eep_writeULong /
eep_readChar / eep_writeChar)

The EEPROM is a flat byte address space, modelled as a function from
addresses to cell contents.  EEPROM.read returns a byte, hence the mask
by 256 on every read; EEPROM.update stores the low byte that the source
masks out with 0xff. -/

/-- One EEPROM.read call: the byte stored at address a. -/
def eep_read (E : Nat → Nat) (a : Nat) : Nat := E a % 256

/-- One EEPROM.update call: store v at address a. -/
def eep_update (E : Nat → Nat) (a v : Nat) : Nat → Nat :=
  fun x => if x = a then v else E x

/-- Embedding of eep_readULong: if the address is in range for a 4-byte
value, assemble the unsigned long from 4 bytes, least significant byte at
the lowest address (the source loops i from 3 down to 0, shifting left by
8 and adding the byte at address + i); otherwise return 0. -/
def eep_readULong (E : Nat → Nat) (address : Nat) : Nat :=
  if address ≤ EEPROM_LENGTH - 4 then
    (List.range 4).foldr (fun i buffer => buffer * 256 + eep_read E (address + i)) 0
  else 0

/-- Embedding of eep_writeULong: if the address is in range for a 4-byte
value, write the 4 bytes of data at address, address+1, address+2,
address+3, least significant first (the source masks with 0xff and shifts
right by 8 each iteration); otherwise leave the storage untouched. -/
def eep_writeULong (data address : Nat) (E : Nat → Nat) : Nat → Nat :=
  if address ≤ EEPROM_LENGTH - 4 then
    ((List.range 4).foldl
      (fun s i => (s.1 / 256, eep_update s.2 (address + i) (s.1 % 256))) (data, E)).2
  else E

/-- Embedding of eep_readChar: the single byte at address if it is in range
for a 1-byte value, 0 otherwise. -/
def eep_readChar (E : Nat → Nat) (address : Nat) : Nat :=
  if address ≤ EEPROM_LENGTH - 1 then eep_read E address else 0

/-- Embedding of eep_writeChar: store the low byte of data at address if it
is in range for a 1-byte value, otherwise leave the storage untouched. -/
def eep_writeChar (data address : Nat) (E : Nat → Nat) : Nat → Nat :=
  if address ≤ EEPROM_LENGTH - 1 then eep_update E address (data % 256) else E

/-! ## Persistence layer, table level (eep_isHighScore /
eep_sortHighScoreTable / eep_addHighScore / eep_initialiseHighScoreTable)

These functions read the whole table, work on it in memory and write it
back; they are embedded as functions on the deserialized table state, a
list of ten HighScore records. -/

/-- Embedding of eep_isHighScore: scan the table and report whether some
entry's score is strictly below the candidate score (the source loop
breaks out via its isHighScore flag as soon as one is found). -/
def eep_isHighScore (score : Nat) (t : List HighScore) : Bool :=
  t.any (fun e => e.score < score)

/-- One comparison step of the inner maximum scan of
eep_sortHighScoreTable: move maxIndex to j when the score at j strictly
exceeds the score at the current maxIndex. -/
def fmStep (l : List HighScore) (m j : Nat) : Nat :=
  if (l.getD j hsDefault).score > (l.getD m hsDefault).score then j else m

/-- The inner loop of eep_sortHighScoreTable: starting from maxIndex = i,
scan j over [i, 10) and keep the first index holding the maximum score. -/
def findMaxIdx (l : List HighScore) (i : Nat) : Nat :=
  (List.range' i (EEP_HIGH_SCORE_TABLE_SIZE - i)).foldl (fmStep l) i

/-- One iteration of the outer loop of eep_sortHighScoreTable: find the
maximum of the suffix starting at i and swap it into position i. -/
def sortPass (l : List HighScore) (i : Nat) : List HighScore :=
  listSwap l i (findMaxIdx l i) hsDefault

/-- Embedding of eep_sortHighScoreTable: selection sort by score,
descending; the outer loop runs i over [0, 9). -/
def eep_sortHighScoreTable (t : List HighScore) : List HighScore :=
  (List.range (EEP_HIGH_SCORE_TABLE_SIZE - 1)).foldl sortPass t

/-- Embedding of eep_addHighScore: when the candidate qualifies, overwrite
the lowest-ranked slot (index 9) and re-sort; report whether it was
stored. -/
def eep_addHighScore (hs : HighScore) (t : List HighScore) : Bool × List HighScore :=
  let isAdded := eep_isHighScore hs.score t
  if isAdded then (true, eep_sortHighScoreTable (t.set (EEP_HIGH_SCORE_TABLE_SIZE - 1) hs))
  else (false, t)

/-- Embedding of eep_initialiseHighScoreTable: the dummy table it writes,
scores 6000, 5500, ..., 1500 under the alias JMT. -/
def eep_initialiseHighScoreTable : List HighScore :=
  (List.range EEP_HIGH_SCORE_TABLE_SIZE).map
    (fun i => ⟨6000 - 500 * i, ['J', 'M', 'T']⟩)

/-- Descending order on records: the later record's score does not exceed
the earlier one's. -/
def scoreGE (a b : HighScore) : Prop := b.score ≤ a.score

instance : DecidableRel scoreGE :=
  fun a b => inferInstanceAs (Decidable (b.score ≤ a.score))

/-! ## Sequence generator (chooseRandomSymbols / generateSymbolSequence)

Symbol pointers are modelled as natural numbers; the Arduino random(0, n)
draws are modelled by an oracle stream rng consumed at successive
positions, each draw reduced mod n as the hardware generator guarantees a
value in [0, n). -/

/-- The random swap partner chosen at step i of chooseRandomSymbols: the
source draws random(0, symbolsLength) afresh at every step. -/
def chooseSwapIndex (symbolsLength : Nat) (rng : Nat → Nat) (i : Nat) : Nat :=
  rng i % symbolsLength

/-- Embedding of chooseRandomSymbols: build the array of references to the
catalog entries, swap position i with the randomly drawn position for
each i in [0, destinationLength), then hand back the first
destinationLength references. -/
def chooseRandomSymbols (symbols : List Nat) (destinationLength : Nat)
    (rng : Nat → Nat) : List Nat :=
  ((List.range destinationLength).foldl
    (fun refs i => listSwap refs i (chooseSwapIndex symbols.length rng i) 0)
    symbols).take destinationLength

/-- One full draw of the candidate sequence in generateSymbolSequence:
sequence[i] = symbols[random(0, symbolsLength)] for every i, reading the
oracle at positions t, t+1, ... -/
def drawSequence (symbols : List Nat) (sequenceLength : Nat) (rng : Nat → Nat)
    (t : Nat) : List Nat :=
  (List.range sequenceLength).map
    (fun i => symbols.getD (rng (t + i) % symbols.length) 0)

/-- The inner containment scan of generateSymbolSequence: whether the
symbol pointer s occurs in the candidate sequence (pointer comparison,
with early exit via the symbolFound flag). -/
def symbolFoundIn (s : Nat) (seq : List Nat) : Bool :=
  seq.any (fun x => x = s)

/-- The acceptance check of generateSymbolSequence: every chosen symbol
pointer occurs at least once in the candidate sequence (early exit via
the containsAllSymbols flag). -/
def containsAllSymbols (symbols seq : List Nat) : Bool :=
  symbols.all (fun s => symbolFoundIn s seq)

/-- Embedding of generateSymbolSequence: repeatedly redraw the whole
sequence until it contains every chosen symbol.  The source's rejection
loop has no iteration cap; the embedding spends one unit of fuel per
attempt and returns none when the fuel is exhausted, so a terminating run
of the source corresponds to some sufficiently large fuel. -/
def generateSymbolSequence : Nat → List Nat → Nat → (Nat → Nat) → Nat → Option (List Nat)
  | 0, _, _, _, _ => none
  | fuel + 1, symbols, sequenceLength, rng, t =>
    if containsAllSymbols symbols (drawSequence symbols sequenceLength rng t) then
      some (drawSequence symbols sequenceLength rng t)
    else generateSymbolSequence fuel symbols sequenceLength rng (t + sequenceLength)

/-! ## Scoring function (inputTimeToScore) -/

/-- Embedding of inputTimeToScore: 100 base points, then three independent
(cumulative, not mutually exclusive) latency bonuses. -/
def inputTimeToScore (timeToInput : Nat) : Nat :=
  let score := 100
  let score := if timeToInput ≤ 250 then score + 50 else score
  let score := if timeToInput ≤ 500 then score + 25 else score
  let score := if timeToInput ≤ 1000 then score + 25 else score
  score

/-! ## Randomized difficulty strategy (randomRoundComplexity)

The switch statement inside the while loop, with the running
randomComplexity selector as explicit state.  The loop is embedded with
fuel: the source loop exits by setting complexityIncreased, which the
embedding models by returning some profile; a default switch case (the
selector out of [0, 4)) never exits in the source, which the embedding
models by consuming all fuel and returning none. -/

/-- The while loop body of randomRoundComplexity: rc is the current value
of the randomComplexity selector. -/
def randLoop : Nat → Nat → RoundProfile → Option RoundProfile
  | 0, _, _ => none
  | fuel + 1, rc, p =>
    if rc = 0 then
      if p.sequenceLength < ROUNDP_SEQUENCE_LENGTH_MAX then
        some { p with sequenceLength := p.sequenceLength + 1 }
      else randLoop fuel 1 p
    else if rc = 1 then
      if p.uniqueSymbols < ROUNDP_UNIQUE_SYMBOLS_MAX then
        some { p with uniqueSymbols := p.uniqueSymbols + 1 }
      else randLoop fuel 2 p
    else if rc = 2 then
      if sub16 p.displayTime 250 ≥ ROUNDP_DISPLAY_TIME_MIN then
        some { p with displayTime := sub16 p.displayTime 250 }
      else randLoop fuel 3 { p with displayTime := ROUNDP_DISPLAY_TIME_MIN }
    else if rc = 3 then
      if sub16 p.inputTime 250 ≥ ROUNDP_INPUT_TIME_MIN then
        some { p with inputTime := sub16 p.inputTime 250 }
      else
        let q := { p with inputTime := ROUNDP_INPUT_TIME_MIN }
        if q.sequenceLength < ROUNDP_SEQUENCE_LENGTH_MAX then randLoop fuel 0 q
        else if q.uniqueSymbols < ROUNDP_UNIQUE_SYMBOLS_MAX then randLoop fuel 1 q
        else if q.displayTime > ROUNDP_DISPLAY_TIME_MIN then randLoop fuel 2 q
        else some q
    else randLoop fuel rc p

/-- Embedding of randomRoundComplexity: for roundNumber > 1, run the while
loop starting from a random selector in [0, 4); the draw random(0, 4) is
modelled as r % 4 for an arbitrary oracle value r.  For roundNumber ≤ 1
the profile is returned unchanged. -/
def randomRoundComplexity (fuel : Nat) (p : RoundProfile) (roundNumber r : Nat) :
    Option RoundProfile :=
  if roundNumber > 1 then randLoop fuel (r % 4) p else some p

/-! ## Concrete tables used by counterexamples and witnesses -/

/-- Table state exhibiting the instability of the selection sort: two
distinct records with equal score 5 ahead of a higher-scoring record. -/
def c6Table : List HighScore :=
  [⟨5, ['A', 'A', 'A']⟩, ⟨5, ['B', 'B', 'B']⟩, ⟨7, ['C', 'C', 'C']⟩,
   ⟨4, []⟩, ⟨3, []⟩, ⟨2, []⟩, ⟨1, []⟩, ⟨0, []⟩, ⟨0, []⟩, ⟨0, []⟩]

/-! ## Claim C4 and C5: the scoring function -/

/-- C4: inputTimeToScore equals 100 plus 50 when the latency is at most
250 ms, plus 25 when at most 500 ms, plus 25 when at most 1000 ms, the
three bonus conditions being cumulative rather than mutually exclusive. -/
theorem inputTimeToScore_cumulative (t : Nat) :
    inputTimeToScore t =
      100 + (if t ≤ 250 then 50 else 0) + (if t ≤ 500 then 25 else 0) +
        (if t ≤ 1000 then 25 else 0) := by
  simp only [inputTimeToScore]
  split_ifs <;> omega

/-- C5, counterexample: the spec's table of sample values is wrong on the
code; a 300 ms input scores 150 (not 125) and a 600 ms input scores 125
(not 100), because the latency bonuses are cumulative. -/
theorem inputTimeToScore_values_cex :
    ¬ (inputTimeToScore 0 = 200 ∧ inputTimeToScore 300 = 125 ∧
       inputTimeToScore 600 = 100 ∧ inputTimeToScore 1500 = 100) := by
  decide

/-- C5, amended: inputTimeToScore returns 200 for latency 0 ms, 150 for
300 ms, 125 for 600 ms, and 100 for 1500 ms. -/
theorem inputTimeToScore_values :
    inputTimeToScore 0 = 200 ∧ inputTimeToScore 300 = 150 ∧
      inputTimeToScore 600 = 125 ∧ inputTimeToScore 1500 = 100 := by
  decide

/-! ## Claim C8 and C10: the byte-level storage accessors -/

/-- C8: out-of-range storage accesses degrade to no-ops: past the last
valid address for the accessed width, eep_readULong and eep_readChar
return 0 while eep_writeULong and eep_writeChar leave every byte of the
storage unchanged. -/
theorem eep_outOfRange_noop (E : Nat → Nat) (a v c : Nat) :
    (EEPROM_LENGTH - 4 < a → eep_readULong E a = 0 ∧ eep_writeULong v a E = E) ∧
    (EEPROM_LENGTH - 1 < a → eep_readChar E a = 0 ∧ eep_writeChar c a E = E) := by
  refine ⟨fun h => ⟨?_, ?_⟩, fun h => ⟨?_, ?_⟩⟩
  · simp [eep_readULong, Nat.not_le.mpr h]
  · simp [eep_writeULong, Nat.not_le.mpr h]
  · simp [eep_readChar, Nat.not_le.mpr h]
  · simp [eep_writeChar, Nat.not_le.mpr h]

/-- Witness for C8 at the concrete out-of-range address 2000. -/
theorem eep_outOfRange_noop_witness :
    EEPROM_LENGTH - 4 < 2000 ∧ EEPROM_LENGTH - 1 < 2000 ∧
    eep_readULong (fun _ => 0) 2000 = 0 ∧
    eep_writeULong 5 2000 (fun _ => 0) = (fun _ => 0) ∧
    eep_readChar (fun _ => 0) 2000 = 0 ∧
    eep_writeChar 7 2000 (fun _ => 0) = (fun _ => 0) :=
  ⟨by decide, by decide,
   ((eep_outOfRange_noop (fun _ => 0) 2000 5 7).1 (by decide)).1,
   ((eep_outOfRange_noop (fun _ => 0) 2000 5 7).1 (by decide)).2,
   ((eep_outOfRange_noop (fun _ => 0) 2000 5 7).2 (by decide)).1,
   ((eep_outOfRange_noop (fun _ => 0) 2000 5 7).2 (by decide)).2⟩

/-- C10: for every 32-bit value and every in-range address, reading back
immediately after writing returns exactly the written value: the
little-endian byte-at-a-time write and read are mutually inverse. -/
theorem eep_writeULong_readULong_roundtrip (E : Nat → Nat) (v a : Nat)
    (hv : v < 4294967296) (ha : a ≤ EEPROM_LENGTH - 4) :
    eep_readULong (eep_writeULong v a E) a = v := by
  have hr : List.range 4 = [0, 1, 2, 3] := rfl
  simp only [eep_readULong, eep_writeULong, if_pos ha, hr,
    List.foldl_cons, List.foldl_nil, List.foldr_cons, List.foldr_nil,
    eep_read, eep_update]
  norm_num [Nat.add_right_cancel_iff]
  omega

/-- Witness for C10 at a concrete value and address. -/
theorem eep_writeULong_readULong_roundtrip_witness :
    305419896 < 4294967296 ∧ (4 : Nat) ≤ EEPROM_LENGTH - 4 ∧
    eep_readULong (eep_writeULong 305419896 4 (fun _ => 0)) 4 = 305419896 :=
  ⟨by decide, by decide,
   eep_writeULong_readULong_roundtrip (fun _ => 0) 305419896 4 (by decide) (by decide)⟩

/-! ## List index lemmas for the swap-based loops -/

/-- Setting an index to the value it already holds leaves the list as is. -/
theorem getD_set_self (l : List α) (i : Nat) (v d : α) (h : i < l.length) :
    (l.set i v).getD i d = v := by
  induction l generalizing i with
  | nil => simp at h
  | cons x xs ih =>
    cases i with
    | zero => rfl
    | succ n =>
      simp only [List.set_cons_succ, List.getD_cons_succ]
      exact ih n (by simpa using h)

/-- Reading away from the updated index sees the original list. -/
theorem getD_set_ne (l : List α) (i k : Nat) (v d : α) (h : i ≠ k) :
    (l.set i v).getD k d = l.getD k d := by
  induction l generalizing i k with
  | nil => simp
  | cons x xs ih =>
    cases i with
    | zero =>
      cases k with
      | zero => exact absurd rfl h
      | succ n => rfl
    | succ n =>
      cases k with
      | zero => rfl
      | succ p =>
        simp only [List.set_cons_succ, List.getD_cons_succ]
        exact ih n p (by omega)

/-- Swapping preserves the length of the array. -/
theorem listSwap_length (l : List α) (i j : Nat) (d : α) :
    (listSwap l i j d).length = l.length := by
  simp [listSwap]

/-- After a swap, position i holds the old element at position j. -/
theorem listSwap_getD_left (l : List α) (i j : Nat) (d : α)
    (hi : i < l.length) (hj : j < l.length) :
    (listSwap l i j d).getD i d = l.getD j d := by
  by_cases hij : j = i
  · subst hij
    unfold listSwap
    rw [getD_set_self]
    simpa using hj
  · unfold listSwap
    rw [getD_set_ne _ j i _ _ hij, getD_set_self _ _ _ _ hi]

/-- After a swap, position j holds the old element at position i. -/
theorem listSwap_getD_right (l : List α) (i j : Nat) (d : α)
    (hj : j < l.length) :
    (listSwap l i j d).getD j d = l.getD i d := by
  unfold listSwap
  rw [getD_set_self]
  simpa using hj

/-- A swap leaves every position other than i and j untouched. -/
theorem listSwap_getD_other (l : List α) (i j k : Nat) (d : α)
    (hki : k ≠ i) (hkj : k ≠ j) :
    (listSwap l i j d).getD k d = l.getD k d := by
  unfold listSwap
  rw [getD_set_ne _ j k _ _ (Ne.symm hkj), getD_set_ne _ i k _ _ (Ne.symm hki)]

/-! ## Correctness of the maximum scan -/

/-- The maximum scan lands either on its starting index or on a scanned
index. -/
theorem fmFold_mem (l : List HighScore) (J : List Nat) (m0 : Nat) :
    J.foldl (fmStep l) m0 = m0 ∨ J.foldl (fmStep l) m0 ∈ J := by
  induction J generalizing m0 with
  | nil => exact Or.inl rfl
  | cons j J ih =>
    simp only [List.foldl_cons]
    rcases ih (fmStep l m0 j) with h | h
    · rw [h]
      unfold fmStep
      split
      · exact Or.inr (List.mem_cons_self _ _)
      · exact Or.inl rfl
    · exact Or.inr (List.mem_cons_of_mem _ h)

/-- The score at the scan result is at least the score at the start
index. -/
theorem fmFold_ge (l : List HighScore) (J : List Nat) (m0 : Nat) :
    (l.getD m0 hsDefault).score ≤ (l.getD (J.foldl (fmStep l) m0) hsDefault).score := by
  induction J generalizing m0 with
  | nil => simp
  | cons j J ih =>
    simp only [List.foldl_cons]
    refine le_trans ?_ (ih (fmStep l m0 j))
    by_cases hc : (l.getD j hsDefault).score > (l.getD m0 hsDefault).score
    · simp only [fmStep, if_pos hc]
      omega
    · simp only [fmStep, if_neg hc]
      omega

/-- The score at the scan result dominates the score at every scanned
index. -/
theorem fmFold_max (l : List HighScore) (J : List Nat) (m0 j : Nat) (hj : j ∈ J) :
    (l.getD j hsDefault).score ≤ (l.getD (J.foldl (fmStep l) m0) hsDefault).score := by
  induction J generalizing m0 with
  | nil => cases hj
  | cons a J ih =>
    simp only [List.foldl_cons]
    rcases List.mem_cons.mp hj with h | h
    · subst h
      refine le_trans ?_ (fmFold_ge l J (fmStep l m0 j))
      by_cases hc : (l.getD j hsDefault).score > (l.getD m0 hsDefault).score
      · simp only [fmStep, if_pos hc]
        omega
      · simp only [fmStep, if_neg hc]
        omega
    · exact ih (fmStep l m0 a) h

/-- The selected maximum index is at least the starting index. -/
theorem findMaxIdx_lb (l : List HighScore) (i : Nat) : i ≤ findMaxIdx l i := by
  unfold findMaxIdx
  rcases fmFold_mem l (List.range' i (EEP_HIGH_SCORE_TABLE_SIZE - i)) i with h | h
  · omega
  · have := List.mem_range'_1.mp h
    omega

/-- The selected maximum index stays below the table size. -/
theorem findMaxIdx_ub (l : List HighScore) (i : Nat)
    (hi : i < EEP_HIGH_SCORE_TABLE_SIZE) : findMaxIdx l i < EEP_HIGH_SCORE_TABLE_SIZE := by
  unfold findMaxIdx
  rcases fmFold_mem l (List.range' i (EEP_HIGH_SCORE_TABLE_SIZE - i)) i with h | h
  · omega
  · have := List.mem_range'_1.mp h
    omega

/-- The score at the selected index dominates every score in the scanned
suffix [i, 10). -/
theorem findMaxIdx_max (l : List HighScore) (i j : Nat) (hij : i ≤ j)
    (hj : j < EEP_HIGH_SCORE_TABLE_SIZE) :
    (l.getD j hsDefault).score ≤ (l.getD (findMaxIdx l i) hsDefault).score := by
  unfold findMaxIdx
  refine fmFold_max l _ i j ?_
  refine List.mem_range'_1.mpr ⟨hij, ?_⟩
  omega

/-! ## Selection sort loop invariant -/

/-- Loop invariant of eep_sortHighScoreTable after the outer loop has
processed the first i positions: the prefix [0, i) is sorted
non-increasing by score, and every prefix score dominates every score in
the unprocessed suffix [i, 10). -/
def SortInv (i : Nat) (l : List HighScore) : Prop :=
  (∀ a b, a < b → b < i →
    (l.getD b hsDefault).score ≤ (l.getD a hsDefault).score) ∧
  (∀ a b, a < i → i ≤ b → b < EEP_HIGH_SCORE_TABLE_SIZE →
    (l.getD b hsDefault).score ≤ (l.getD a hsDefault).score)

/-- One pass of the outer loop preserves the length of the table. -/
theorem sortPass_length (l : List HighScore) (i : Nat) :
    (sortPass l i).length = l.length := by
  simp [sortPass, listSwap_length]

/-- One pass of the outer loop extends the invariant from i to i + 1. -/
theorem sortPass_inv (l : List HighScore) (i : Nat)
    (hlen : l.length = EEP_HIGH_SCORE_TABLE_SIZE)
    (hi : i < EEP_HIGH_SCORE_TABLE_SIZE)
    (h : SortInv i l) : SortInv (i + 1) (sortPass l i) := by
  obtain ⟨h1, h2⟩ := h
  have hm1 : i ≤ findMaxIdx l i := findMaxIdx_lb l i
  have hm2 : findMaxIdx l i < EEP_HIGH_SCORE_TABLE_SIZE := findMaxIdx_ub l i hi
  have hil : i < l.length := by omega
  have hml : findMaxIdx l i < l.length := by omega
  have e_i : (sortPass l i).getD i hsDefault = l.getD (findMaxIdx l i) hsDefault :=
    listSwap_getD_left l i (findMaxIdx l i) hsDefault hil hml
  have e_m : (sortPass l i).getD (findMaxIdx l i) hsDefault = l.getD i hsDefault :=
    listSwap_getD_right l i (findMaxIdx l i) hsDefault hml
  have e_other : ∀ k, k ≠ i → k ≠ findMaxIdx l i →
      (sortPass l i).getD k hsDefault = l.getD k hsDefault :=
    fun k hki hkm => listSwap_getD_other l i (findMaxIdx l i) k hsDefault hki hkm
  have e_lt : ∀ k, k < i → (sortPass l i).getD k hsDefault = l.getD k hsDefault :=
    fun k hk => e_other k (by omega) (by omega)
  constructor
  · intro a b hab hb
    rcases Nat.lt_or_ge b i with hbi | hbi
    · rw [e_lt a (by omega), e_lt b hbi]
      exact h1 a b hab hbi
    · have hbeq : b = i := by omega
      rw [hbeq, e_lt a (by omega), e_i]
      exact h2 a (findMaxIdx l i) (by omega) hm1 hm2
  · intro a b ha hb hb10
    rcases Nat.lt_or_ge a i with hai | hai
    · by_cases hbm : b = findMaxIdx l i
      · subst hbm
        rw [e_lt a hai, e_m]
        exact h2 a i hai (le_refl i) hi
      · rw [e_lt a hai, e_other b (by omega) hbm]
        exact h2 a b hai (by omega) hb10
    · have haeq : a = i := by omega
      rw [haeq, e_i]
      by_cases hbm : b = findMaxIdx l i
      · rw [hbm, e_m]
        exact findMaxIdx_max l i i (le_refl i) hi
      · rw [e_other b (by omega) hbm]
        exact findMaxIdx_max l i b (by omega) hb10

/-- Running the outer loop up to bound k establishes the invariant at k
while preserving the length. -/
theorem sortFold_inv (l : List HighScore)
    (hlen : l.length = EEP_HIGH_SCORE_TABLE_SIZE) (k : Nat)
    (hk : k ≤ EEP_HIGH_SCORE_TABLE_SIZE) :
    ((List.range k).foldl sortPass l).length = EEP_HIGH_SCORE_TABLE_SIZE ∧
      SortInv k ((List.range k).foldl sortPass l) := by
  induction k with
  | zero =>
    refine ⟨by simpa using hlen, ?_, ?_⟩
    · intro a b hab hb
      omega
    · intro a b ha hb hb10
      omega
  | succ n ih =>
    obtain ⟨ihlen, ihinv⟩ := ih (by omega)
    rw [List.range_succ, List.foldl_append, List.foldl_cons, List.foldl_nil]
    refine ⟨?_, ?_⟩
    · rw [sortPass_length]
      exact ihlen
    · exact sortPass_inv _ n ihlen (by omega) ihinv

/-- The selection sort preserves the length of the table. -/
theorem eep_sortHighScoreTable_length (t : List HighScore)
    (hlen : t.length = EEP_HIGH_SCORE_TABLE_SIZE) :
    (eep_sortHighScoreTable t).length = EEP_HIGH_SCORE_TABLE_SIZE := by
  have h := sortFold_inv t hlen (EEP_HIGH_SCORE_TABLE_SIZE - 1) (by omega)
  exact h.1

/-- The selection sort leaves the full table sorted non-increasing by
score. -/
theorem eep_sortHighScoreTable_pairwise (t : List HighScore)
    (hlen : t.length = EEP_HIGH_SCORE_TABLE_SIZE) :
    (eep_sortHighScoreTable t).Pairwise scoreGE := by
  obtain ⟨hlen9, hinv⟩ := sortFold_inv t hlen (EEP_HIGH_SCORE_TABLE_SIZE - 1) (by omega)
  rw [eep_sortHighScoreTable, List.pairwise_iff_getElem]
  intro a b ha hb hab
  show ((List.range (EEP_HIGH_SCORE_TABLE_SIZE - 1)).foldl sortPass t)[b].score ≤
    ((List.range (EEP_HIGH_SCORE_TABLE_SIZE - 1)).foldl sortPass t)[a].score
  rw [← List.getD_eq_getElem _ hsDefault ha, ← List.getD_eq_getElem _ hsDefault hb]
  rcases Nat.lt_or_ge b (EEP_HIGH_SCORE_TABLE_SIZE - 1) with hb9 | hb9
  · exact hinv.1 a b hab hb9
  · exact hinv.2 a b (by omega) hb9 (by omega)

/-! ## Claim C1: the high-score table invariant -/

/-- C1: starting from a table of exactly ten records sorted non-increasing
by score, after any finite sequence of eep_addHighScore calls the table
still has exactly ten records sorted non-increasing by score. -/
theorem highScoreTable_invariant_preserved (adds : List HighScore) (t : List HighScore)
    (hlen : t.length = EEP_HIGH_SCORE_TABLE_SIZE) (hsorted : t.Pairwise scoreGE) :
    (adds.foldl (fun s hs => (eep_addHighScore hs s).2) t).length = EEP_HIGH_SCORE_TABLE_SIZE ∧
      (adds.foldl (fun s hs => (eep_addHighScore hs s).2) t).Pairwise scoreGE := by
  induction adds generalizing t with
  | nil => exact ⟨hlen, hsorted⟩
  | cons a as ih =>
    simp only [List.foldl_cons]
    by_cases hq : eep_isHighScore a.score t = true
    · have h2 : (eep_addHighScore a t).2 =
          eep_sortHighScoreTable (t.set (EEP_HIGH_SCORE_TABLE_SIZE - 1) a) := by
        simp [eep_addHighScore, hq]
      rw [h2]
      have hlen' : (t.set (EEP_HIGH_SCORE_TABLE_SIZE - 1) a).length =
          EEP_HIGH_SCORE_TABLE_SIZE := by
        simp [hlen]
      exact ih _ (eep_sortHighScoreTable_length _ hlen')
        (eep_sortHighScoreTable_pairwise _ hlen')
    · have h2 : (eep_addHighScore a t).2 = t := by
        simp [eep_addHighScore, hq]
      rw [h2]
      exact ih t hlen hsorted

/-- Witness for C1: inserting a qualifying score into the initial dummy
table. -/
theorem highScoreTable_invariant_witness :
    eep_initialiseHighScoreTable.length = EEP_HIGH_SCORE_TABLE_SIZE ∧
    eep_initialiseHighScoreTable.Pairwise scoreGE ∧
    ((([⟨6500, ['A', 'B', 'C']⟩] : List HighScore).foldl
        (fun s hs => (eep_addHighScore hs s).2) eep_initialiseHighScoreTable).length =
          EEP_HIGH_SCORE_TABLE_SIZE ∧
      (([⟨6500, ['A', 'B', 'C']⟩] : List HighScore).foldl
        (fun s hs => (eep_addHighScore hs s).2) eep_initialiseHighScoreTable).Pairwise scoreGE) :=
  ⟨by decide, by decide,
   highScoreTable_invariant_preserved [⟨6500, ['A', 'B', 'C']⟩] eep_initialiseHighScoreTable
     (by decide) (by decide)⟩

/-! ## Claim C3: the high-score qualification test -/

/-- C3: against a full table sorted non-increasing by score,
eep_isHighScore holds exactly when the candidate score strictly exceeds
the score of the last (index 9, lowest-ranked) entry; in particular a tie
with the tenth-place score is rejected. -/
theorem eep_isHighScore_iff_last (t : List HighScore) (s : Nat)
    (hlen : t.length = EEP_HIGH_SCORE_TABLE_SIZE) (hsorted : t.Pairwise scoreGE) :
    (eep_isHighScore s t = true ↔
      (t.getD (EEP_HIGH_SCORE_TABLE_SIZE - 1) hsDefault).score < s) := by
  have h9 : EEP_HIGH_SCORE_TABLE_SIZE - 1 < t.length := by
    rw [hlen]
    decide
  rw [eep_isHighScore, List.any_eq_true]
  constructor
  · rintro ⟨e, he, hlt⟩
    have hlt' : e.score < s := by simpa using hlt
    obtain ⟨k, hk, hke⟩ := List.mem_iff_getElem.mp he
    have hpw := List.pairwise_iff_getElem.mp hsorted
    have hle : (t.getD (EEP_HIGH_SCORE_TABLE_SIZE - 1) hsDefault).score ≤ e.score := by
      rw [List.getD_eq_getElem _ hsDefault h9]
      rcases Nat.lt_or_ge k (EEP_HIGH_SCORE_TABLE_SIZE - 1) with hk9 | hk9
      · have hrel := hpw k (EEP_HIGH_SCORE_TABLE_SIZE - 1) hk h9 hk9
        rw [← hke]
        exact hrel
      · have hkeq : k = EEP_HIGH_SCORE_TABLE_SIZE - 1 := by omega
        subst hkeq
        rw [← hke]
    omega
  · intro h
    refine ⟨t.getD (EEP_HIGH_SCORE_TABLE_SIZE - 1) hsDefault, ?_, by simpa using h⟩
    rw [List.getD_eq_getElem _ hsDefault h9]
    exact List.getElem_mem h9

/-- Witness for C3 at the initial dummy table with a candidate score that
exactly ties the tenth place (both sides of the equivalence are false). -/
theorem eep_isHighScore_iff_last_witness :
    eep_initialiseHighScoreTable.length = EEP_HIGH_SCORE_TABLE_SIZE ∧
    eep_initialiseHighScoreTable.Pairwise scoreGE ∧
    (eep_isHighScore 1500 eep_initialiseHighScoreTable = true ↔
      (eep_initialiseHighScoreTable.getD (EEP_HIGH_SCORE_TABLE_SIZE - 1) hsDefault).score
        < 1500) :=
  ⟨by decide, by decide, eep_isHighScore_iff_last _ 1500 (by decide) (by decide)⟩

/-! ## Claim C6: the sort is descending but not stable -/

/-- C6, counterexample: eep_sortHighScoreTable is not a stable sort.  In
c6Table the two distinct records with score 5 appear as the A record then
the B record, but after sorting they appear as the B record then the A
record: the swap that brings the score-7 record to the front carries the
A record past the B record. -/
theorem eep_sortHighScoreTable_not_stable_cex :
    c6Table.filter (fun e => e.score == 5) =
      [⟨5, ['A', 'A', 'A']⟩, ⟨5, ['B', 'B', 'B']⟩] ∧
    (eep_sortHighScoreTable c6Table).filter (fun e => e.score == 5) =
      [⟨5, ['B', 'B', 'B']⟩, ⟨5, ['A', 'A', 'A']⟩] ∧
    (⟨5, ['A', 'A', 'A']⟩ : HighScore) ≠ ⟨5, ['B', 'B', 'B']⟩ := by
  decide

/-- C6, amended: eep_sortHighScoreTable is a descending selection sort that
is not stable: it always leaves the ten records sorted non-increasing by
score, but records with equal scores may be reordered. -/
theorem eep_sortHighScoreTable_sorts_desc (t : List HighScore)
    (hlen : t.length = EEP_HIGH_SCORE_TABLE_SIZE) :
    (eep_sortHighScoreTable t).length = EEP_HIGH_SCORE_TABLE_SIZE ∧
      (eep_sortHighScoreTable t).Pairwise scoreGE :=
  ⟨eep_sortHighScoreTable_length t hlen, eep_sortHighScoreTable_pairwise t hlen⟩

/-- Witness for the amended C6 on the counterexample table. -/
theorem eep_sortHighScoreTable_sorts_desc_witness :
    c6Table.length = EEP_HIGH_SCORE_TABLE_SIZE ∧
    ((eep_sortHighScoreTable c6Table).length = EEP_HIGH_SCORE_TABLE_SIZE ∧
      (eep_sortHighScoreTable c6Table).Pairwise scoreGE) :=
  ⟨by decide, eep_sortHighScoreTable_sorts_desc c6Table (by decide)⟩

/-! ## Claim C7: the random selection draws from the full range -/

/-- C7, counterexample: the swap partner of chooseRandomSymbols is drawn
from the whole index range, not from the remaining unshuffled range: with
a two-symbol catalog and an oracle that always returns 0, the draw at
step i = 1 is position 0 < 1, an already-shuffled position, and the swap
visibly moves the entry placed at position 0 by the earlier step. -/
theorem chooseRandomSymbols_full_range_cex :
    chooseSwapIndex 2 (fun _ => 0) 1 = 0 ∧
    ¬ (1 ≤ chooseSwapIndex 2 (fun _ => 0) 1) ∧
    chooseRandomSymbols [10, 20] 2 (fun _ => 0) = [20, 10] := by
  decide

/-- C7, amended: at every step i the swap partner of chooseRandomSymbols is
drawn from the entire index range [0, n) of the n-symbol catalog (the
oracle value reduced mod n), so it may also land on an already-shuffled
position j < i. -/
theorem chooseSwapIndex_in_range (n : Nat) (rng : Nat → Nat) (i : Nat)
    (h : 0 < n) : chooseSwapIndex n rng i < n :=
  Nat.mod_lt _ h

/-- Witness for the amended C7. -/
theorem chooseSwapIndex_in_range_witness :
    0 < 2 ∧ chooseSwapIndex 2 (fun _ => 7) 5 < 2 :=
  ⟨by decide, chooseSwapIndex_in_range 2 (fun _ => 7) 5 (by decide)⟩

/-! ## Claim C2: coverage of the generated sequence -/

/-- C2: whenever generateSymbolSequence terminates on a nonempty
duplicate-free catalog of k symbol pointers with k at most the sequence
length, the produced sequence has exactly the requested length, contains
every one of the k input pointers at least once, and consists only of
input pointers. -/
theorem generateSymbolSequence_coverage (fuel sequenceLength t : Nat)
    (symbols : List Nat) (rng : Nat → Nat) (seq : List Nat)
    (_hnd : symbols.Nodup) (_hkL : symbols.length ≤ sequenceLength)
    (hne : symbols ≠ [])
    (h : generateSymbolSequence fuel symbols sequenceLength rng t = some seq) :
    seq.length = sequenceLength ∧ (∀ s ∈ symbols, s ∈ seq) ∧ ∀ x ∈ seq, x ∈ symbols := by
  induction fuel generalizing t with
  | zero => simp [generateSymbolSequence] at h
  | succ n ih =>
    rw [generateSymbolSequence] at h
    by_cases hc :
        containsAllSymbols symbols (drawSequence symbols sequenceLength rng t) = true
    · rw [if_pos hc] at h
      obtain rfl : drawSequence symbols sequenceLength rng t = seq := by simpa using h
      refine ⟨by simp [drawSequence], ?_, ?_⟩
      · intro s hs
        have h1 : symbolFoundIn s (drawSequence symbols sequenceLength rng t) = true :=
          List.all_eq_true.mp (by simpa [containsAllSymbols] using hc) s hs
        simpa [symbolFoundIn] using h1
      · intro x hx
        obtain ⟨i, hi, hfx⟩ := List.mem_map.mp hx
        have hpos : 0 < symbols.length := List.length_pos.mpr hne
        have hlt : rng (t + i) % symbols.length < symbols.length := Nat.mod_lt _ hpos
        rw [← hfx, List.getD_eq_getElem _ _ hlt]
        exact List.getElem_mem hlt
    · rw [if_neg hc] at h
      exact ih (t + sequenceLength) h

/-- Witness for C2 on a two-symbol catalog with an oracle whose first two
draws already cover both symbols. -/
theorem generateSymbolSequence_coverage_witness :
    ([5, 9] : List Nat).Nodup ∧ ([5, 9] : List Nat).length ≤ 2 ∧
    ([5, 9] : List Nat) ≠ [] ∧
    generateSymbolSequence 1 [5, 9] 2 (fun x => x) 0 = some [5, 9] ∧
    (([5, 9] : List Nat).length = 2 ∧ (∀ s ∈ ([5, 9] : List Nat), s ∈ ([5, 9] : List Nat)) ∧
      ∀ x ∈ ([5, 9] : List Nat), x ∈ ([5, 9] : List Nat)) :=
  ⟨by decide, by decide, by decide, by decide,
   generateSymbolSequence_coverage 1 2 0 [5, 9] (fun x => x) [5, 9]
     (by decide) (by decide) (by decide) (by decide)⟩

/-! ## Claim C9: maximal difficulty is a fixed point -/

/-- Inside the loop of randomRoundComplexity, a profile already at the
difficulty maxima is a fixed point: from any live selector value, if the
loop terminates it returns the profile unchanged. -/
theorem randLoop_maximised (fuel : Nat) :
    ∀ rc s p', rc < 4 →
      randLoop fuel rc ⟨15, 4, 500, 500, s⟩ = some p' →
        p' = ⟨15, 4, 500, 500, s⟩ := by
  induction fuel with
  | zero =>
    intro rc s p' hrc h
    simp [randLoop] at h
  | succ n ih =>
    intro rc s p' hrc h
    interval_cases rc
    · simp only [randLoop] at h
      norm_num [ROUNDP_SEQUENCE_LENGTH_MAX] at h
      exact ih 1 s p' (by norm_num) h
    · simp only [randLoop] at h
      norm_num [ROUNDP_SEQUENCE_LENGTH_MAX, ROUNDP_UNIQUE_SYMBOLS_MAX] at h
      exact ih 2 s p' (by norm_num) h
    · simp only [randLoop] at h
      norm_num [ROUNDP_DISPLAY_TIME_MIN, sub16] at h
      exact ih 3 s p' (by norm_num) h
    · simp only [randLoop] at h
      norm_num [ROUNDP_SEQUENCE_LENGTH_MAX, ROUNDP_UNIQUE_SYMBOLS_MAX,
        ROUNDP_DISPLAY_TIME_MIN, ROUNDP_INPUT_TIME_MIN, sub16] at h
      exact h.symm

/-- C9: a RoundProfile with all four difficulty dimensions at their maxima
(sequenceLength 15, uniqueSymbols 4, displayTime 500 ms, inputTime
500 ms) is left completely unchanged by randomRoundComplexity, for every
fuel, every round number and every outcome of the random draw. -/
theorem randomRoundComplexity_maximised_fixed (fuel roundNumber r : Nat)
    (p p' : RoundProfile)
    (h1 : p.sequenceLength = ROUNDP_SEQUENCE_LENGTH_MAX)
    (h2 : p.uniqueSymbols = ROUNDP_UNIQUE_SYMBOLS_MAX)
    (h3 : p.displayTime = ROUNDP_DISPLAY_TIME_MIN)
    (h4 : p.inputTime = ROUNDP_INPUT_TIME_MIN)
    (h : randomRoundComplexity fuel p roundNumber r = some p') : p' = p := by
  obtain ⟨a, b, c, d, s⟩ := p
  simp only [ROUNDP_SEQUENCE_LENGTH_MAX, ROUNDP_UNIQUE_SYMBOLS_MAX,
    ROUNDP_DISPLAY_TIME_MIN, ROUNDP_INPUT_TIME_MIN] at h1 h2 h3 h4
  subst h1 h2 h3 h4
  rw [randomRoundComplexity] at h
  by_cases hr : roundNumber > 1
  · rw [if_pos hr] at h
    exact randLoop_maximised fuel (r % 4) s p' (Nat.mod_lt _ (by norm_num)) h
  · rw [if_neg hr] at h
    exact (Option.some.inj h).symm

/-- Witness for C9 at a concrete maximised profile, fuel 5, round 2 and
draw 3. -/
theorem randomRoundComplexity_maximised_witness :
    (⟨15, 4, 500, 500, 0⟩ : RoundProfile).sequenceLength = ROUNDP_SEQUENCE_LENGTH_MAX ∧
    (⟨15, 4, 500, 500, 0⟩ : RoundProfile).uniqueSymbols = ROUNDP_UNIQUE_SYMBOLS_MAX ∧
    (⟨15, 4, 500, 500, 0⟩ : RoundProfile).displayTime = ROUNDP_DISPLAY_TIME_MIN ∧
    (⟨15, 4, 500, 500, 0⟩ : RoundProfile).inputTime = ROUNDP_INPUT_TIME_MIN ∧
    randomRoundComplexity 5 ⟨15, 4, 500, 500, 0⟩ 2 3 = some ⟨15, 4, 500, 500, 0⟩ ∧
    (⟨15, 4, 500, 500, 0⟩ : RoundProfile) = ⟨15, 4, 500, 500, 0⟩ :=
  ⟨rfl, rfl, rfl, rfl, by decide,
   randomRoundComplexity_maximised_fixed 5 2 3 ⟨15, 4, 500, 500, 0⟩ ⟨15, 4, 500, 500, 0⟩
     rfl rfl rfl rfl (by decide)⟩
